import Mathlib

/-!
Verification of the translation-orchestration subsystem of the
Chrono-Ark CSV editor (`src/csv_editor.py`), shallowly embedded in Lean.

Provider identifiers and language codes are strings, as in the source.
Wall-clock times and delays are rationals.  Network calls are modelled
by oracles (`String → Except String String` mapping a service name to
the outcome of calling that service on the fixed text of the request).
-/

namespace CsvEditor

/-- A record of `self.translation_log`'s entries, as built by
`log_translation` (timestamps omitted: they never influence control
flow in the translation path). -/
structure LogEntry where
  source : String
  target : String
  service : String
  success : Bool
  error : String
  deriving Repr, DecidableEq

/-- The `TranslationService` enum: `[s.value for s in TranslationService]`. -/
def validServices : List String := ["google", "mymemory"]

/-- The services `_translate_text_core` can actually dispatch on
(`if service == 'google' ... elif service == 'mymemory' ... else continue`). -/
def knownService (s : String) : Bool := s = "google" || s = "mymemory"

/-- `load_config`'s sanitization of `(enabled_services, priority_order)`:
filter both lists to valid services, then replace either by `['google']`
when it has become empty. -/
def sanitizeConfig (enabled priority : List String) : List String × List String :=
  let e := enabled.filter (fun s => validServices.contains s)
  let p := priority.filter (fun s => validServices.contains s)
  (if e = [] then ["google"] else e, if p = [] then ["google"] else p)

/-- The providers a translation call can actually invoke: members of
`priority_order` that are also in `enabled_services` and are dispatched
by `_translate_text_core` (unknown names fall through its `else: continue`). -/
def eligibleServices (priority enabled : List String) : List String :=
  priority.filter (fun s => enabled.contains s && knownService s)

/-- The loop of `_translate_text_core` over the remaining services.
`call` is the outcome oracle for the request's fixed text;
`lastErr` mirrors `last_exception`.  Returns the result
(`Except.error lastErr` plays `raise last_exception if last_exception
else Exception(...)`), the log entries appended via `log_translation`,
and the list of services actually invoked, in order. -/
def coreRun (text : String) (enabled : List String)
    (call : String → Except String String) :
    Option String → List String →
    Except (Option String) (String × String) × List LogEntry × List String
  | lastErr, [] => (Except.error lastErr, [], [])
  | lastErr, s :: rest =>
    if enabled.contains s && knownService s then
      match call s with
      | Except.ok t => (Except.ok (t, s), [⟨text, t, s, true, ""⟩], [s])
      | Except.error e =>
        let r := coreRun text enabled call (some e) rest
        (r.1, ⟨text, "", s, false, e⟩ :: r.2.1, s :: r.2.2)
    else coreRun text enabled call lastErr rest

/-- `_translate_text_core text source_lang target_lang` with the
provider calls abstracted into `call`. -/
def translateCore (text : String) (priority enabled : List String)
    (call : String → Except String String) :
    Except (Option String) (String × String) × List LogEntry × List String :=
  coreRun text enabled call none priority

/-- `coreRun` without the eligibility filter, used to reason about the
loop over `eligibleServices` directly. -/
def coreAll (text : String) (call : String → Except String String) :
    Option String → List String →
    Except (Option String) (String × String) × List LogEntry × List String
  | lastErr, [] => (Except.error lastErr, [], [])
  | _, s :: rest =>
    match call s with
    | Except.ok t => (Except.ok (t, s), [⟨text, t, s, true, ""⟩], [s])
    | Except.error e =>
      let r := coreAll text call (some e) rest
      (r.1, ⟨text, "", s, false, e⟩ :: r.2.1, s :: r.2.2)

/-- `is_endpoint_disabled`, acting on the provider's entry of
`self.circuit_breaker` (`none` when the endpoint has no entry).
Returns the boolean result together with the entry after the call,
since the cooldown-elapsed branch deletes the entry. -/
def isDisabledCheck (threshold : ℕ) (cooldown now : ℚ)
    (st : Option (ℕ × ℚ)) : Bool × Option (ℕ × ℚ) :=
  match st with
  | none => (false, none)
  | some (failures, lastFailure) =>
    if threshold ≤ failures then
      if now - lastFailure < cooldown then (true, some (failures, lastFailure))
      else (false, none)
    else (false, some (failures, lastFailure))

/-- `record_endpoint_failure`: create `[0, 0]` when absent, then
increment the count and stamp the current time. -/
def recordFailure (now : ℚ) (st : Option (ℕ × ℚ)) : Option (ℕ × ℚ) :=
  match st with
  | none => some (1, now)
  | some (failures, _) => some (failures + 1, now)

/-- One run of `_translate_text_simple_retry`'s loop body chain.
`call i` is the outcome of the `i`-th execution of
`_translate_text_core` (the whole provider cascade), abstracted.
Arguments: the attempt index about to run, `last_exception` so far, and
the number of loop iterations remaining.  Returns the overall result,
the list of back-off waits slept (`min(10, 2 ** attempt)`, only when
another iteration follows), and the list of attempt indices executed. -/
def retryGo (call : ℕ → Except String String) :
    ℕ → Option String → ℕ → Except (Option String) String × List ℕ × List ℕ
  | _, lastErr, 0 => (Except.error lastErr, [], [])
  | attempt, _, remaining + 1 =>
    match call attempt with
    | Except.ok v => (Except.ok v, [], [attempt])
    | Except.error e =>
      let r := retryGo call (attempt + 1) (some e) remaining
      (r.1, (if 0 < remaining then [min 10 (2 ^ attempt)] else []) ++ r.2.1,
        attempt :: r.2.2)

/-- `_translate_text_simple_retry` with `max_retries = retryCount`. -/
def simpleRetry (retryCount : ℕ) (call : ℕ → Except String String) :
    Except (Option String) String × List ℕ × List ℕ :=
  retryGo call 0 none retryCount

/-- `log_translation`'s bookkeeping on `self.translation_log`: append
the new entry, then keep only the last 1000 entries when the length
exceeds 1000 (`self.translation_log[-1000:]`). -/
def logAppend (log : List LogEntry) (e : LogEntry) : List LogEntry :=
  let l := log ++ [e]
  if 1000 < l.length then l.drop (l.length - 1000) else l

/-- `check_endpoint_health`: both endpoint flags are exactly
`DEEP_TRANSLATOR_AVAILABLE`. -/
def checkEndpointHealth (deepTranslatorAvailable : Bool) : Bool × Bool :=
  (deepTranslatorAvailable, deepTranslatorAvailable)

/-- `validate_translation_readiness`: `any(self.endpoint_status.values())`
after `check_endpoint_health`; the config is never consulted. -/
def validateReadiness (deepTranslatorAvailable : Bool) : Bool :=
  (checkEndpointHealth deepTranslatorAvailable).1 ||
    (checkEndpointHealth deepTranslatorAvailable).2

/-- The whitespace class stripped by Python's `str.strip()`
(ASCII fragment: space, tab, newline, carriage return, vertical tab,
form feed). -/
def isPySpace (c : Char) : Bool :=
  c = ' ' || c = '\t' || c = '\n' || c = '\r' ||
    c = Char.ofNat 11 || c = Char.ofNat 12

/-- Python `str.strip()` on the modelled whitespace class. -/
def pyStrip (s : String) : String :=
  ⟨((s.data.dropWhile isPySpace).reverse.dropWhile isPySpace).reverse⟩

/-- State threaded through one batch-translation loop
(`translate_selected_cells` / `translate_column`).  `sleeps` records
every `time.sleep` as a pair (deterministic part, jitter width): the
actual sleep is the first component plus a uniform draw from
`[0, width]`. -/
structure BatchState where
  translated : ℕ
  failed : ℕ
  consec : ℕ
  curDelay : ℚ
  log : List LogEntry
  invoked : List String
  sleeps : List (ℚ × ℚ)
  deriving Repr, DecidableEq

/-- The item-translation oracle a batch step uses: result of
`translate_text`, the log entries it appended, and the services it
invoked. -/
def TranslateOracle : Type :=
  String → Except (Option String) (String × String) × List LogEntry × List String

/-- The body of `translate_selected_cells`'s loop for one cell, given
the raw cell text.  Blank cells (`if not cell_text: continue`) leave
the state untouched; otherwise the stripped text is translated and the
success/failure branch runs exactly as in the source (note the source
updates `current_delay` before sleeping). -/
def selCellsStep (baseDelay maxDelay : ℚ) (tr : TranslateOracle)
    (st : BatchState) (cellRaw : String) : BatchState :=
  let cellText := pyStrip cellRaw
  if cellText = "" then st
  else
    let r := tr cellText
    match r.1 with
    | Except.ok _ =>
      let d := max baseDelay (st.curDelay * (9 / 10))
      { st with translated := st.translated + 1, consec := 0, curDelay := d,
                log := st.log ++ r.2.1, invoked := st.invoked ++ r.2.2,
                sleeps := st.sleeps ++ [(d, d * (1 / 10))] }
    | Except.error _ =>
      let c := st.consec + 1
      let w := min maxDelay (baseDelay * 2 ^ min (c - 1) 4)
      { st with failed := st.failed + 1, consec := c,
                curDelay := min maxDelay (st.curDelay * (3 / 2)),
                log := st.log ++ r.2.1, invoked := st.invoked ++ r.2.2,
                sleeps := st.sleeps ++ [(w, 0)] }

/-- The body of `translate_column`'s loop for one row: the source cell
may be missing (`not source_item`), and a present cell is skipped when
its stripped text is empty; otherwise the raw (unstripped) text is
translated, with the same success/failure bookkeeping. -/
def columnStep (baseDelay maxDelay : ℚ) (tr : TranslateOracle)
    (st : BatchState) (sourceItem : Option String) : BatchState :=
  match sourceItem with
  | none => st
  | some raw =>
    if pyStrip raw = "" then st
    else
      let r := tr raw
      match r.1 with
      | Except.ok _ =>
        let d := max baseDelay (st.curDelay * (9 / 10))
        { st with translated := st.translated + 1, consec := 0, curDelay := d,
                  log := st.log ++ r.2.1, invoked := st.invoked ++ r.2.2,
                  sleeps := st.sleeps ++ [(d, d * (1 / 10))] }
      | Except.error _ =>
        let c := st.consec + 1
        let w := min maxDelay (baseDelay * 2 ^ min (c - 1) 4)
        { st with failed := st.failed + 1, consec := c,
                  curDelay := min maxDelay (st.curDelay * (3 / 2)),
                  log := st.log ++ r.2.1, invoked := st.invoked ++ r.2.2,
                  sleeps := st.sleeps ++ [(w, 0)] }

/-- The fresh pacing state both batch entry points set up before their
loops. -/
def initialBatchState (baseDelay : ℚ) : BatchState :=
  ⟨0, 0, 0, baseDelay, [], [], []⟩

/-- `translate_selected_cells` as a whole: the up-front
`validate_translation_readiness` guard, then the sequential loop. -/
def runSelCellsBatch (deepTranslatorAvailable : Bool) (baseDelay maxDelay : ℚ)
    (tr : TranslateOracle) (cells : List String) : BatchState :=
  if validateReadiness deepTranslatorAvailable then
    cells.foldl (selCellsStep baseDelay maxDelay tr) (initialBatchState baseDelay)
  else initialBatchState baseDelay

/-- Modelled from the spec (§4.2, for comparison with the source's
success branch): "On success: emit progress, sleep
`currentDelay + jitter(0, 0.1*currentDelay)`, then
`currentDelay = max(baseDelaySeconds, currentDelay * 0.9)`" — the sleep
uses the pre-decay `currentDelay`. -/
def specSuccessSleep (curDelay : ℚ) : ℚ × ℚ :=
  (curDelay, curDelay * (1 / 10))

/-- The sleep pair the source's success branch actually performs
(post-decay `current_delay`). -/
def codeSuccessSleep (baseDelay curDelay : ℚ) : ℚ × ℚ :=
  let d := max baseDelay (curDelay * (9 / 10))
  (d, d * (1 / 10))

/-- The locale table of `translate_with_mymemory` (`lang_map`). -/
def langMap : List (String × String) :=
  [("en", "en-GB"), ("ko", "ko-KR"), ("ja", "ja-JP"), ("zh", "zh-CN"),
   ("es", "es-ES"), ("fr", "fr-FR"), ("de", "de-DE"), ("it", "it-IT"),
   ("pt", "pt-PT"), ("ru", "ru-RU"), ("ar", "ar-SA"), ("hi", "hi-IN"),
   ("th", "th-TH"), ("vi", "vi-VN"), ("id", "id-ID"), ("tr", "tr-TR"),
   ("pl", "pl-PL"), ("nl", "nl-NL"), ("sv", "sv-SE"), ("da", "da-DK"),
   ("fi", "fi-FI"), ("no", "nb-NO"), ("cs", "cs-CZ"), ("hu", "hu-HU"),
   ("ro", "ro-RO"), ("uk", "uk-UA"), ("el", "el-GR"), ("he", "he-IL")]

/-- Python `str.lower()` (ASCII fragment), character by character. -/
def pyLower (s : String) : String := ⟨s.data.map Char.toLower⟩

/-- Python `str.upper()` (ASCII fragment), character by character. -/
def pyUpper (s : String) : String := ⟨s.data.map Char.toUpper⟩

/-- `source_lang.lower()[:2]` — the two-letter code
`translate_with_mymemory` derives from a caller-supplied language
(Python slices by characters, as does the list `take`). -/
def myMemoryCode (lang : String) : String := ⟨(pyLower lang).data.take 2⟩

/-- The locale string `translate_with_mymemory` hands to the provider:
the table entry for the two-letter code, or the synthetic
`f"{code}-{code.upper()}"` fallback. -/
def myMemoryLocale (lang : String) : String :=
  let code := myMemoryCode lang
  match langMap.lookup code with
  | some loc => loc
  | none => code ++ "-" ++ pyUpper code

/-- A fixture log entry for concrete instantiations. -/
def sampleEntry : LogEntry := ⟨"src", "tgt", "google", true, ""⟩

/-- A fixture outcome oracle: Google is down, MyMemory answers. -/
def sampleCall : String → Except String String :=
  fun s => if s = "mymemory" then Except.ok "T" else Except.error "down"

/-- A fixture item-translation oracle that always fails. -/
def sampleOracle : TranslateOracle :=
  fun _ => (Except.error none, [], [])

/-- A fixture item-translation oracle that always succeeds via Google. -/
def sampleOkOracle : TranslateOracle :=
  fun _ => (Except.ok ("T", "google"), [⟨"hi", "T", "google", true, ""⟩],
    ["google"])

theorem coreRun_eq_coreAll (text : String) (enabled : List String)
    (call : String → Except String String) (lastErr : Option String) :
    ∀ priority, coreRun text enabled call lastErr priority =
      coreAll text call lastErr
        (priority.filter (fun s => enabled.contains s && knownService s)) := by
  intro priority
  induction priority generalizing lastErr with
  | nil => rfl
  | cons s rest ih =>
    by_cases hs : (enabled.contains s && knownService s) = true
    · simp only [coreRun, hs, if_true, List.filter_cons, hs, coreAll]
      cases call s with
      | ok t => rfl
      | error e => simp only [ih]
    · simp only [coreRun, hs, if_false, List.filter_cons, hs, ih]
      simp only [Bool.false_eq_true, if_false, ih]

theorem translateCore_eq (text : String) (priority enabled : List String)
    (call : String → Except String String) :
    translateCore text priority enabled call =
      coreAll text call none (eligibleServices priority enabled) :=
  coreRun_eq_coreAll text enabled call none priority


/-- C5: `is_endpoint_disabled` returns true iff the provider's failure
count has reached the threshold and the elapsed time since its last
failure is strictly below the cooldown; when the count has reached the
threshold but the cooldown has elapsed, the entry is deleted (failure
count back to 0) and the result is false, and an absent entry is never
disabled. -/
theorem C5_isDisabled (threshold : ℕ) (cooldown now lastFailure : ℚ)
    (failures : ℕ) :
    ((isDisabledCheck threshold cooldown now (some (failures, lastFailure))).1
        = true ↔
      threshold ≤ failures ∧ now - lastFailure < cooldown) ∧
    (threshold ≤ failures → cooldown ≤ now - lastFailure →
      isDisabledCheck threshold cooldown now (some (failures, lastFailure))
        = (false, none)) ∧
    (∀ now2 : ℚ, (isDisabledCheck threshold cooldown now2 none).1 = false) := by
  refine ⟨?_, ?_, fun now2 => rfl⟩
  · simp only [isDisabledCheck]
    split_ifs with hthr hcd
    · simp only [true_iff]
      exact ⟨hthr, hcd⟩
    · simp only [Bool.false_eq_true, false_iff, not_and]
      exact fun _ => hcd
    · simp only [Bool.false_eq_true, false_iff, not_and]
      exact fun hthr2 => absurd hthr2 hthr
  · intro hthr hcd
    simp only [isDisabledCheck, if_pos hthr, if_neg (not_lt.mpr hcd)]

/-- Witness for C5 at threshold 3, cooldown 5, three failures last seen
6 time units ago: the state is cleared and the iff holds. -/
theorem C5_isDisabled_witness :
    isDisabledCheck 3 5 8 (some (3, 2)) = (false, none) ∧
    ((isDisabledCheck 3 5 8 (some (3, 2))).1 = true ↔
      3 ≤ 3 ∧ (8 : ℚ) - 2 < 5) := by
  have h := C5_isDisabled 3 5 8 2 3
  exact ⟨h.2.1 (by norm_num) (by norm_num), h.1⟩

theorem logAppend_eq_drop (log : List LogEntry) (e : LogEntry) :
    logAppend log e = (log ++ [e]).drop ((log ++ [e]).length - 1000) := by
  simp only [logAppend]
  split
  · rfl
  · next h =>
    have h0 : (log ++ [e]).length - 1000 = 0 := by omega
    rw [h0, List.drop_zero]

theorem logAppend_length_min (log : List LogEntry) (e : LogEntry)
    (h : log.length ≤ 1000) :
    (logAppend log e).length = min (log.length + 1) 1000 := by
  simp only [logAppend]
  split
  · next hgt =>
    simp only [List.length_drop, List.length_append, List.length_singleton]
      at hgt ⊢
    omega
  · next hle =>
    simp only [List.length_append, List.length_singleton] at hle ⊢
    omega

theorem logAppend_length_le (log : List LogEntry) (e : LogEntry)
    (h : log.length ≤ 1000) : (logAppend log e).length ≤ 1000 := by
  rw [logAppend_length_min log e h]
  omega

theorem logAppend_foldl (es : List LogEntry) :
    ∀ log : List LogEntry, log.length ≤ 1000 →
      (es.foldl logAppend log).length ≤ 1000 := by
  induction es with
  | nil => intro log h; simpa using h
  | cons e rest ih =>
    intro log h
    exact ih (logAppend log e) (logAppend_length_le log e h)

/-- C6: starting from a log of at most 1000 entries, an append leaves
exactly `min (length + 1) 1000` entries (hence at most 1000); the
result is always a suffix of the appended list
(evictions happen only at the head and the retained order is unchanged);
at exactly 1000 entries the oldest entry is evicted, leaving exactly
1000; and any sequence of appends preserves the bound. -/
theorem C6_logBound (log : List LogEntry) (e : LogEntry)
    (h : log.length ≤ 1000) :
    (logAppend log e).length = min (log.length + 1) 1000 ∧
    logAppend log e = (log ++ [e]).drop ((log ++ [e]).length - 1000) ∧
    (log.length = 1000 →
      logAppend log e = log.drop 1 ++ [e] ∧ (logAppend log e).length = 1000) ∧
    (∀ es : List LogEntry, (es.foldl logAppend log).length ≤ 1000) := by
  refine ⟨logAppend_length_min log e h, logAppend_eq_drop log e, ?_,
    fun es => logAppend_foldl es log h⟩
  intro h1000
  have hdrop := logAppend_eq_drop log e
  have hlen : (log ++ [e]).length - 1000 = 1 := by simp [h1000]
  rw [hlen] at hdrop
  have happ : (log ++ [e]).drop 1 = log.drop 1 ++ [e] :=
    List.drop_append_of_le_length (by omega)
  refine ⟨hdrop.trans happ, ?_⟩
  rw [hdrop]
  simp [h1000]

/-- Witness for C6 on a full 1000-entry log: the append stays at 1000
and evicts the head entry. -/
theorem C6_logBound_witness :
    (logAppend (List.replicate 1000 sampleEntry) sampleEntry).length = 1000 ∧
    logAppend (List.replicate 1000 sampleEntry) sampleEntry =
      (List.replicate 1000 sampleEntry).drop 1 ++ [sampleEntry] := by
  have h := C6_logBound (List.replicate 1000 sampleEntry) sampleEntry
    (by rw [List.length_replicate])
  have h1000 := h.2.2.1 (by rw [List.length_replicate])
  exact ⟨h1000.2, h1000.1⟩

/-- C9: in both batch loops, an item whose text is empty or
whitespace-only (or whose source cell is missing, for the column loop)
leaves the batch state completely unchanged: no provider invocation, no
log entry, no sleep, and neither counter moves. -/
theorem C9_blankSkip (base maxD : ℚ) (tr : TranslateOracle)
    (st : BatchState) (cell : String) (h : pyStrip cell = "") :
    selCellsStep base maxD tr st cell = st ∧
    columnStep base maxD tr st (some cell) = st ∧
    columnStep base maxD tr st none = st := by
  refine ⟨?_, ?_, rfl⟩
  · simp [selCellsStep, h]
  · simp [columnStep, h]

/-- Witness for C9 on the whitespace-only cell text `" \t "`. -/
theorem C9_blankSkip_witness :
    selCellsStep 8 60 sampleOracle (initialBatchState 8) " \t " =
      initialBatchState 8 ∧
    columnStep 8 60 sampleOracle (initialBatchState 8) (some " \t ") =
      initialBatchState 8 ∧
    columnStep 8 60 sampleOracle (initialBatchState 8) none =
      initialBatchState 8 :=
  C9_blankSkip 8 60 sampleOracle (initialBatchState 8) " \t " rfl

/-- C10: the MyMemory adapter reduces any caller-supplied language to
the first two characters of its lowercasing and sends either the
built-in table's locale for that code or the synthetic
`code-CODE` fallback; in particular the region-qualified `"EN-US"` is
reduced to `"en"` and sent as `"en-GB"`. -/
theorem C10_mymemoryLocale :
    (∀ lang : String,
      langMap.lookup (myMemoryCode lang) = some (myMemoryLocale lang) ∨
      (langMap.lookup (myMemoryCode lang) = none ∧
        myMemoryLocale lang =
          myMemoryCode lang ++ "-" ++ pyUpper (myMemoryCode lang))) ∧
    myMemoryCode "EN-US" = "en" ∧
    myMemoryLocale "EN-US" = "en-GB" := by
  refine ⟨fun lang => ?_, by decide, by decide⟩
  cases hl : langMap.lookup (myMemoryCode lang) with
  | none => exact Or.inr ⟨rfl, by simp only [myMemoryLocale, hl]⟩
  | some loc => exact Or.inl (by simp only [myMemoryLocale, hl])


theorem coreAll_first_ok (text : String) (call : String → Except String String)
    (s : String) :
    ∀ (el : List String) (lastErr : Option String),
      el.find? (fun x => (call x).isOk) = some s →
      ∃ t, call s = Except.ok t ∧
        (coreAll text call lastErr el).1 = Except.ok (t, s) ∧
        (coreAll text call lastErr el).2.2 =
          el.takeWhile (fun x => !(call x).isOk) ++ [s] := by
  intro el
  induction el with
  | nil => intro lastErr h; simp at h
  | cons x rest ih =>
    intro lastErr h
    by_cases hx : (call x).isOk = true
    · rw [List.find?_cons_of_pos (p := fun y => (call y).isOk) rest hx] at h
      injection h with hs
      subst hs
      cases hc : call x with
      | error e2 =>
        rw [hc] at hx
        exact absurd hx (Bool.false_ne_true)
      | ok t =>
        refine ⟨t, rfl, ?_, ?_⟩
        · simp only [coreAll, hc]
        · rw [List.takeWhile_cons_of_neg (p := fun y => !(call y).isOk)
            (by simp [hx])]
          simp only [coreAll, hc, List.nil_append]
    · rw [List.find?_cons_of_neg (p := fun y => (call y).isOk) rest hx] at h
      cases hc : call x with
      | ok t =>
        rw [hc] at hx
        exact absurd rfl hx
      | error e2 =>
        obtain ⟨t, ht, hres, hinv⟩ := ih (some e2) h
        refine ⟨t, ht, ?_, ?_⟩
        · simp only [coreAll, hc, hres]
        · rw [List.takeWhile_cons_of_pos (p := fun y => !(call y).isOk)
            (by simp [hc, Except.isOk, Except.toBool])]
          simp only [coreAll, hc, List.cons_append]
          rw [← hinv]

/-- C3: for any configuration and any per-provider outcomes, when some
eligible provider succeeds, `_translate_text_core` returns the
translation and identity of the first eligible provider in priority
order whose call succeeds, and the providers invoked are exactly the
failing eligible prefix followed by that provider — no provider after
the first success is invoked. -/
theorem C3_firstSuccess (text : String) (priority enabled : List String)
    (call : String → Except String String) (s : String)
    (h : (eligibleServices priority enabled).find?
        (fun x => (call x).isOk) = some s) :
    ∃ t, call s = Except.ok t ∧
      (translateCore text priority enabled call).1 = Except.ok (t, s) ∧
      (translateCore text priority enabled call).2.2 =
        (eligibleServices priority enabled).takeWhile
          (fun x => !(call x).isOk) ++ [s] := by
  rw [translateCore_eq]
  exact coreAll_first_ok text call s (eligibleServices priority enabled) none h

/-- Witness for C3: Google down, MyMemory up, priority
`["google", "mymemory"]` — the call returns MyMemory's translation and
invokes exactly Google (failing) then MyMemory. -/
theorem C3_firstSuccess_witness :
    ∃ t, sampleCall "mymemory" = Except.ok t ∧
      (translateCore "hi" ["google", "mymemory"] ["google", "mymemory"]
          sampleCall).1 = Except.ok (t, "mymemory") ∧
      (translateCore "hi" ["google", "mymemory"] ["google", "mymemory"]
          sampleCall).2.2 =
        (eligibleServices ["google", "mymemory"]
            ["google", "mymemory"]).takeWhile
          (fun x => !(sampleCall x).isOk) ++ ["mymemory"] :=
  C3_firstSuccess "hi" ["google", "mymemory"] ["google", "mymemory"]
    sampleCall "mymemory" (by decide)

theorem retryGo_attempts_le (call : ℕ → Except String String) :
    ∀ (remaining attempt : ℕ) (lastErr : Option String),
      (retryGo call attempt lastErr remaining).2.2.length ≤ remaining := by
  intro remaining
  induction remaining with
  | zero => intro attempt lastErr; simp [retryGo]
  | succ n ih =>
    intro attempt lastErr
    simp only [retryGo]
    cases call attempt with
    | ok v => simp
    | error e =>
      simp only [List.length_cons]
      exact Nat.succ_le_succ (ih (attempt + 1) (some e))

theorem retryGo_all_fail (call : ℕ → Except String String) (e : ℕ → String) :
    ∀ (remaining attempt : ℕ) (lastErr : Option String),
      (∀ i, attempt ≤ i → i < attempt + remaining → call i = Except.error (e i)) →
      retryGo call attempt lastErr remaining =
        ((if remaining = 0 then Except.error lastErr
          else Except.error (some (e (attempt + remaining - 1)))),
         (List.range' attempt (remaining - 1)).map (fun i => min 10 (2 ^ i)),
         List.range' attempt remaining) := by
  intro remaining
  induction remaining with
  | zero => intro attempt lastErr _; simp [retryGo]
  | succ n ih =>
    intro attempt lastErr hfail
    have hcall : call attempt = Except.error (e attempt) :=
      hfail attempt (Nat.le_refl _) (by omega)
    have hrest := ih (attempt + 1) (some (e attempt))
      (fun i h1 h2 => hfail i (by omega) (by omega))
    simp only [retryGo, hcall, hrest, Prod.mk.injEq]
    cases n with
    | zero => simp [List.range']
    | succ m =>
      refine ⟨?_, ?_, ?_⟩
      · rw [if_neg (by omega), if_neg (by omega)]
        have harg : attempt + 1 + (m + 1) - 1 = attempt + (m + 1 + 1) - 1 := by
          omega
        rw [harg]
      · rw [if_pos (by omega)]
        have hr : List.range' attempt (m + 1 + 1 - 1) =
            attempt :: List.range' (attempt + 1) (m + 1 - 1) := by
          have h1 : m + 1 + 1 - 1 = m + 1 := by omega
          have h2 : m + 1 - 1 = m := by omega
          rw [h1, h2]
          rfl
        rw [hr, List.map_cons]
        rfl
      · rfl

/-- C4: the simple retry wrapper executes at most `retryCount` attempts
of the wrapped translation call; when every attempt fails, it runs
exactly attempts `0, …, retryCount-1`, sleeps
`min(10, 2^attempt)` after each failed attempt except the last, and
propagates the final attempt's error with no further retry. -/
theorem C4_retryWrapper (retryCount : ℕ) (call : ℕ → Except String String)
    (e : ℕ → String) :
    (simpleRetry retryCount call).2.2.length ≤ retryCount ∧
    ((∀ i, i < retryCount → call i = Except.error (e i)) → 0 < retryCount →
      simpleRetry retryCount call =
        (Except.error (some (e (retryCount - 1))),
         (List.range (retryCount - 1)).map (fun i => min 10 (2 ^ i)),
         List.range retryCount)) := by
  constructor
  · exact retryGo_attempts_le call retryCount 0 none
  · intro hfail hpos
    have h := retryGo_all_fail call e retryCount 0 none
      (fun i _ h2 => hfail i (by omega))
    simp only [simpleRetry, h, Nat.zero_add]
    rw [if_neg (by omega), List.range_eq_range', List.range_eq_range']

/-- Witness for C4 with `retryCount = 3` and an always-failing call:
three attempts, back-off waits 1 then 2, the last error propagated. -/
theorem C4_retryWrapper_witness :
    (simpleRetry 3 (fun _ => Except.error "boom")).2.2.length ≤ 3 ∧
    simpleRetry 3 (fun _ => Except.error "boom") =
      (Except.error (some "boom"), [1, 2], [0, 1, 2]) := by
  have h := C4_retryWrapper 3 (fun _ => Except.error "boom") (fun _ => "boom")
  refine ⟨h.1, ?_⟩
  rw [h.2 (fun i _ => rfl) (by omega)]
  rfl


/-- Counterexample to C1 as stated: both sanitized lists survive
`load_config` untouched, yet the eligible list actually used by
`_translate_text_core` — priority intersected with enabled — is empty,
and a translation call invokes no provider at all and fails, with no
default substituted. -/
theorem C1_counterexample :
    sanitizeConfig ["mymemory"] ["google"] = (["mymemory"], ["google"]) ∧
    eligibleServices (sanitizeConfig ["mymemory"] ["google"]).2
      (sanitizeConfig ["mymemory"] ["google"]).1 = [] ∧
    (translateCore "hello" ["google"] ["mymemory"]
      (fun _ => Except.ok "T")).1 = Except.error none ∧
    (translateCore "hello" ["google"] ["mymemory"]
      (fun _ => Except.ok "T")).2.2 = [] := by
  exact ⟨rfl, rfl, rfl, rfl⟩

/-- C1 (amended): sanitization guarantees that `enabled_services` and
`priority_order` are each individually non-empty (substituting
`['google']` when either filters to empty), but the eligible list a
translation actually uses — their intersection — may still be empty, in
which case `_translate_text_core` invokes no provider, appends no log
entry, and fails. -/
theorem C1_sanitize (enabled priority : List String) :
    (sanitizeConfig enabled priority).1 ≠ [] ∧
    (sanitizeConfig enabled priority).2 ≠ [] ∧
    (∀ (text : String) (call : String → Except String String),
      eligibleServices (sanitizeConfig enabled priority).2
        (sanitizeConfig enabled priority).1 = [] →
      (translateCore text (sanitizeConfig enabled priority).2
        (sanitizeConfig enabled priority).1 call).1 = Except.error none ∧
      (translateCore text (sanitizeConfig enabled priority).2
        (sanitizeConfig enabled priority).1 call).2.1 = [] ∧
      (translateCore text (sanitizeConfig enabled priority).2
        (sanitizeConfig enabled priority).1 call).2.2 = []) := by
  refine ⟨?_, ?_, ?_⟩
  · simp only [sanitizeConfig]
    split
    · simp
    · next hne => exact hne
  · simp only [sanitizeConfig]
    split
    · simp
    · next hne => exact hne
  · intro text call hemp
    have heq := translateCore_eq text (sanitizeConfig enabled priority).2
      (sanitizeConfig enabled priority).1 call
    rw [hemp] at heq
    rw [heq]
    exact ⟨rfl, rfl, rfl⟩

/-- Witness for C1 (amended) at the configuration
`enabled = ['mymemory']`, `priority = ['google']`, whose intersection is
empty. -/
theorem C1_sanitize_witness :
    (sanitizeConfig ["mymemory"] ["google"]).1 ≠ [] ∧
    (sanitizeConfig ["mymemory"] ["google"]).2 ≠ [] ∧
    (translateCore "hi" (sanitizeConfig ["mymemory"] ["google"]).2
      (sanitizeConfig ["mymemory"] ["google"]).1
      (fun _ => Except.ok "T")).1 = Except.error none := by
  have h := C1_sanitize ["mymemory"] ["google"]
  exact ⟨h.1, h.2.1, (h.2.2 "hi" (fun _ => Except.ok "T") rfl).1⟩

/-- C2 evaluated at the failing input: with Google's circuit entry at
the threshold (5 failures, last one a second ago, cooldown 300) the
breaker reports Google disabled, yet `_translate_text_core` — whose
inputs do not even include the circuit state — still invokes Google
first; and its failure path appends only a translation-log entry, never
the `record_endpoint_failure` update (shown alongside: what that update
would have produced). -/
theorem C2_breakerBypassed :
    (isDisabledCheck 5 300 100 (some (5, 99))).1 = true ∧
    (translateCore "hi" ["google", "mymemory"] ["google", "mymemory"]
        (fun s => if s = "google" then Except.error "boom"
          else Except.ok "T")).2.2 = ["google", "mymemory"] ∧
    (translateCore "hi" ["google", "mymemory"] ["google", "mymemory"]
        (fun s => if s = "google" then Except.error "boom"
          else Except.ok "T")).2.1 =
      [⟨"hi", "", "google", false, "boom"⟩,
       ⟨"hi", "T", "mymemory", true, ""⟩] ∧
    recordFailure 100 (some (5, 99)) = some (6, 100) := by
  exact ⟨by norm_num [isDisabledCheck], rfl, rfl, rfl⟩


theorem selCellsStep_fail (base maxD : ℚ) (tr : TranslateOracle)
    (htr : ∀ t, ((tr t).1).isOk = false) (st : BatchState) (cell : String)
    (hblank : ¬ pyStrip cell = "") :
    (selCellsStep base maxD tr st cell).failed = st.failed + 1 ∧
    (selCellsStep base maxD tr st cell).translated = st.translated := by
  simp only [selCellsStep, if_neg hblank]
  cases hr : (tr (pyStrip cell)).1 with
  | ok v =>
    have hko := htr (pyStrip cell)
    rw [hr] at hko
    simp [Except.isOk, Except.toBool] at hko
  | error e => simp [hr]

theorem selFail_foldl (base maxD : ℚ) (tr : TranslateOracle)
    (htr : ∀ t, ((tr t).1).isOk = false) :
    ∀ (cells : List String) (st : BatchState),
      ((cells.foldl (selCellsStep base maxD tr) st).failed =
        st.failed + cells.countP (fun c => !(decide (pyStrip c = "")))) ∧
      ((cells.foldl (selCellsStep base maxD tr) st).translated =
        st.translated) := by
  intro cells
  induction cells with
  | nil => intro st; simp
  | cons c rest ih =>
    intro st
    by_cases hb : pyStrip c = ""
    · have hstep : selCellsStep base maxD tr st c = st := by
        simp [selCellsStep, hb]
      have hcount : (c :: rest).countP (fun x => !(decide (pyStrip x = ""))) =
          rest.countP (fun x => !(decide (pyStrip x = ""))) := by
        simp [List.countP_cons, hb]
      refine ⟨?_, ?_⟩
      · simp only [List.foldl_cons, hstep]
        rw [hcount]
        exact (ih st).1
      · simp only [List.foldl_cons, hstep]
        exact (ih st).2
    · have hstep := selCellsStep_fail base maxD tr htr st c hb
      have hrest := ih (selCellsStep base maxD tr st c)
      have hcount : (c :: rest).countP (fun x => !(decide (pyStrip x = ""))) =
          rest.countP (fun x => !(decide (pyStrip x = ""))) + 1 := by
        simp [List.countP_cons, hb]
      refine ⟨?_, ?_⟩
      · simp only [List.foldl_cons]
        rw [hcount, hrest.1, hstep.1]
        omega
      · simp only [List.foldl_cons]
        rw [hrest.2, hstep.2]

/-- Counterexample to C7 as stated: a sanitized configuration whose
eligible working set is empty is not detected up front —
`validate_translation_readiness` passes whenever the backend library is
available — and the batch then proceeds, each item failing individually
(two items yield two recorded failures and two back-off sleeps), rather
than one up-front batch failure. -/
theorem C7_counterexample :
    validateReadiness true = true ∧
    eligibleServices (sanitizeConfig ["mymemory"] ["google"]).2
      (sanitizeConfig ["mymemory"] ["google"]).1 = [] ∧
    (runSelCellsBatch true 8 60
        (fun t => translateCore t (sanitizeConfig ["mymemory"] ["google"]).2
          (sanitizeConfig ["mymemory"] ["google"]).1 (fun _ => Except.ok "T"))
        ["hello", "world"]).failed = 2 ∧
    (runSelCellsBatch true 8 60
        (fun t => translateCore t (sanitizeConfig ["mymemory"] ["google"]).2
          (sanitizeConfig ["mymemory"] ["google"]).1 (fun _ => Except.ok "T"))
        ["hello", "world"]).sleeps.length = 2 := by
  exact ⟨rfl, rfl, rfl, rfl⟩

/-- C7 (amended): the only condition detected before any per-item
attempt is backend unavailability — `validate_translation_readiness`
returns exactly `DEEP_TRANSLATOR_AVAILABLE` and a false answer returns
the initial state with no item processed; when the configuration's
eligible working set is empty but the library is available, the batch
runs and every non-blank item fails individually while nothing is
translated. -/
theorem C7_readiness :
    (∀ (base maxD : ℚ) (tr : TranslateOracle) (cells : List String),
      runSelCellsBatch false base maxD tr cells = initialBatchState base) ∧
    (∀ d : Bool, validateReadiness d = d) ∧
    (∀ (base maxD : ℚ) (tr : TranslateOracle) (cells : List String),
      (∀ t, ((tr t).1).isOk = false) →
      (runSelCellsBatch true base maxD tr cells).failed =
        cells.countP (fun c => !(decide (pyStrip c = ""))) ∧
      (runSelCellsBatch true base maxD tr cells).translated = 0) := by
  refine ⟨fun base maxD tr cells => rfl, fun d => Bool.or_self d, ?_⟩
  intro base maxD tr cells htr
  have h := selFail_foldl base maxD tr htr cells (initialBatchState base)
  constructor
  · have h1 := h.1
    simp only [initialBatchState] at h1
    rw [Nat.zero_add] at h1
    exact h1
  · exact h.2

/-- Witness for C7 (amended): a disabled backend short-circuits the
batch; an always-failing oracle on `["hello", " "]` fails exactly the
one non-blank item and translates nothing. -/
theorem C7_readiness_witness :
    runSelCellsBatch false 8 60 sampleOracle ["hello"] =
      initialBatchState 8 ∧
    validateReadiness true = true ∧
    (runSelCellsBatch true 8 60 sampleOracle ["hello", " "]).failed =
      (["hello", " "].countP (fun c => !(decide (pyStrip c = "")))) ∧
    (runSelCellsBatch true 8 60 sampleOracle ["hello", " "]).translated = 0 := by
  have h := C7_readiness
  have h3 := h.2.2 8 60 sampleOracle ["hello", " "] (fun t => rfl)
  exact ⟨h.1 8 60 sampleOracle ["hello"], h.2.1 true, h3.1, h3.2⟩


/-- Counterexample to C8 as stated: with base delay 8 and
`current_delay` 10, the source decays the delay to 9 before sleeping,
so the loop sleeps 9 plus jitter from [0, 0.9] — not the spec's
pre-decay 10 plus jitter from [0, 1]. -/
theorem C8_counterexample :
    (selCellsStep 8 60 sampleOkOracle ⟨0, 0, 0, 10, [], [], []⟩ "hi").sleeps =
      [(9, 9 / 10)] ∧
    specSuccessSleep 10 = (10, 1) ∧
    ((9 : ℚ), (9 : ℚ) / 10) ≠ specSuccessSleep 10 := by
  refine ⟨?_, ?_, ?_⟩
  · show [] ++ [(max 8 (10 * (9 / 10) : ℚ), max 8 (10 * (9 / 10) : ℚ) * (1 / 10))] =
      [(9, 9 / 10)]
    norm_num
  · show ((10 : ℚ), (10 : ℚ) * (1 / 10)) = (10, 1)
    norm_num
  · intro hcontra
    have h9 : (9 : ℚ) = 10 := congrArg Prod.fst hcontra
    norm_num at h9

/-- C8 (amended): in the success branch of both batch loops the source
first resets `consecutive_failures` and updates `current_delay` to
`max(base_delay, current_delay * 0.9)`, and only then sleeps
`current_delay + jitter(0, 0.1 * current_delay)` — the pacing sleep
uses the post-decay value, strictly smaller than the spec's pre-decay
value whenever `current_delay` exceeds the base delay. -/
theorem C8_successBranch (base maxD : ℚ) (tr : TranslateOracle)
    (st : BatchState) (cell : String) (res res2 : String × String)
    (hblank : ¬ pyStrip cell = "")
    (hok : (tr (pyStrip cell)).1 = Except.ok res) :
    selCellsStep base maxD tr st cell =
      { st with translated := st.translated + 1, consec := 0,
                curDelay := max base (st.curDelay * (9 / 10)),
                log := st.log ++ (tr (pyStrip cell)).2.1,
                invoked := st.invoked ++ (tr (pyStrip cell)).2.2,
                sleeps := st.sleeps ++ [codeSuccessSleep base st.curDelay] } ∧
    ((tr cell).1 = Except.ok res2 →
      columnStep base maxD tr st (some cell) =
        { st with translated := st.translated + 1, consec := 0,
                  curDelay := max base (st.curDelay * (9 / 10)),
                  log := st.log ++ (tr cell).2.1,
                  invoked := st.invoked ++ (tr cell).2.2,
                  sleeps := st.sleeps ++ [codeSuccessSleep base st.curDelay] }) ∧
    (0 ≤ base → base < st.curDelay →
      (codeSuccessSleep base st.curDelay).1 < (specSuccessSleep st.curDelay).1) := by
  refine ⟨?_, ?_, ?_⟩
  · simp only [selCellsStep, if_neg hblank, hok, codeSuccessSleep]
  · intro hok2
    simp only [columnStep, if_neg hblank, hok2, codeSuccessSleep]
  · intro hbase hlt
    simp only [codeSuccessSleep, specSuccessSleep]
    have hc : (0 : ℚ) < st.curDelay := lt_of_le_of_lt hbase hlt
    exact max_lt hlt (by linarith)

/-- Witness for C8 (amended) at base 8, `current_delay` 10, on a
succeeding oracle: the state after the step carries the post-decay
delay 9 and the sleep pair (9, 0.9), and 9 < 10. -/
theorem C8_successBranch_witness :
    selCellsStep 8 60 sampleOkOracle ⟨2, 1, 3, 10, [], [], []⟩ "hi" =
      { translated := 3, failed := 1, consec := 0, curDelay := 9,
        log := [⟨"hi", "T", "google", true, ""⟩], invoked := ["google"],
        sleeps := [(9, 9 / 10)] } ∧
    columnStep 8 60 sampleOkOracle ⟨2, 1, 3, 10, [], [], []⟩ (some "hi") =
      { translated := 3, failed := 1, consec := 0, curDelay := 9,
        log := [⟨"hi", "T", "google", true, ""⟩], invoked := ["google"],
        sleeps := [(9, 9 / 10)] } ∧
    (codeSuccessSleep 8 10).1 < (specSuccessSleep 10).1 := by
  have h := C8_successBranch 8 60 sampleOkOracle ⟨2, 1, 3, 10, [], [], []⟩ "hi"
    ("T", "google") ("T", "google") (by simp [pyStrip, isPySpace]) rfl
  refine ⟨?_, ?_, h.2.2 (by norm_num) (by norm_num)⟩
  · rw [h.1]
    simp only [sampleOkOracle, codeSuccessSleep, BatchState.mk.injEq]
    norm_num
  · rw [h.2.1 rfl]
    simp only [sampleOkOracle, codeSuccessSleep, BatchState.mk.injEq]
    norm_num

end CsvEditor
